import Mathlib

/-!
# `liburcu-demo-apps/demo1/cds_lfq_dequeue.c`

A sequential model of the demo program: `struct container`, the two
container-recovery helpers, `CONTAINER_new`, `CONTAINER_free`,
`CONTAINER_free_callback` and `main` are translated from the C source.

The queue (`cds_lfq_*`) and the reclamation domain (`rcu_*`, `call_rcu`) are
library code that the repository only calls; their models follow the
description in the specification and are marked as such.

Addresses are natural numbers.  Memory is split by field kind: the `value`
cell of a container is keyed by the container's base address, the `next`
cell of a queue node by the node's address, the callback cell of an
`rcu_head` by the address of that `rcu_head`.
-/

namespace LfqDemo

/-! ## Layout of `struct container` -/

/-- Sizes and alignments of the member types of `struct container`.  The two
library types are declared in `<urcu/rculfqueue.h>` and `<urcu.h>`, outside
the repository, so their size and alignment are parameters. -/
structure Layout where
  sizeof_int : Nat
  sizeof_node : Nat
  alignof_node : Nat
  sizeof_rcu_head : Nat
  alignof_rcu_head : Nat
deriving DecidableEq, Repr

/-- Smallest multiple of `a` that is at least `off` (for `a > 0`): where the
compiler places a member of alignment `a` after `off` bytes. -/
def align_up (off a : Nat) : Nat := (off + (a - 1)) / a * a

/-- The constant `offsetof(struct container, value)`: the first member. -/
def offsetof_value (_L : Layout) : Nat := 0

/-- The constant `offsetof(struct container, member2)`: `member2` follows the
`int value`, padded up to the alignment of `struct cds_lfq_node_rcu`. -/
def offsetof_member2 (L : Layout) : Nat :=
  align_up (offsetof_value L + L.sizeof_int) L.alignof_node

/-- The constant `offsetof(struct container, rcu_head)`: `rcu_head` follows
`member2`, padded up to the alignment of `struct rcu_head`. -/
def offsetof_rcu_head (L : Layout) : Nat :=
  align_up (offsetof_member2 L + L.sizeof_node) L.alignof_rcu_head

/-- The usual LP64 figures: 4-byte `int`, a 16-byte 8-aligned queue node, a
16-byte 8-aligned `rcu_head`. -/
def LP64 : Layout :=
  { sizeof_int := 4, sizeof_node := 16, alignof_node := 8,
    sizeof_rcu_head := 16, alignof_rcu_head := 8 }

/-- Source lines 126-132: `container_ptr -= offsetof(struct container, member2)`. -/
def get_container_ptr_by_member2 (L : Layout) (member2 : Nat) : Nat :=
  member2 - offsetof_member2 L

/-- Source lines 137-143: `container_ptr -= offsetof(struct container, rcu_head)`. -/
def get_container_ptr_by_member3 (L : Layout) (member3 : Nat) : Nat :=
  member3 - offsetof_rcu_head L

/-! ## Memory -/

/-- Pointwise update of a memory cell. -/
def upd {β : Type} (f : Nat → β) (a : Nat) (v : β) : Nat → β :=
  fun b => if b = a then v else f b

/-- The release functions that the program hands to `call_rcu`. -/
inductive Callback where
  | CONTAINER_free_callback
deriving DecidableEq, Repr

/-- The heap, by field kind. -/
structure Mem where
  value : Nat → Int
  next : Nat → Option Nat
  rcu_head : Nat → Option Callback

/-- Atomic compare-and-swap on one cell: the new content of the cell and
whether the swap took place. -/
def cas {α : Type} [DecidableEq α] (cell expected desired : α) : α × Bool :=
  if cell = expected then (desired, true) else (cell, false)

/-! ## The lock-free queue (library) -/

/-- The queue object `struct cds_lfq_queue_rcu`: a head and a tail reference. -/
structure cds_lfq_queue_rcu where
  head : Nat
  tail : Nat
deriving DecidableEq, Repr

/-- Modelled from the spec: `cds_lfq_node_init_rcu` is library code.  A node is
"a mutable next reference and no payload of its own"; initialising it makes
that reference absent. -/
def cds_lfq_node_init_rcu (node : Nat) (mem : Mem) : Mem :=
  { mem with next := upd mem.next node none }

/-- Modelled from the spec: `cds_lfq_init_rcu` is library code.  "`init()`:
allocates and installs a sentinel node; head = tail = sentinel."  The address
that the allocation yields is the argument `sentinel`. -/
def cds_lfq_init_rcu (sentinel : Nat) (mem : Mem) : cds_lfq_queue_rcu × Mem :=
  ({ head := sentinel, tail := sentinel }, cds_lfq_node_init_rcu sentinel mem)

/-- Modelled from the spec: `cds_lfq_enqueue_rcu` is library code.  "read tail;
attempt to link `node` as tail's successor via compare-and-swap on tail's next
reference; on success, attempt to swing the queue's tail pointer to `node`
(best-effort ...).  Retries on CAS failure with a fresh read of tail."  On a
failed link the enqueuer completes the pending swing of the tail (cooperative
completion) before it retries.  The retry loop is bounded by `fuel`; `none`
means the bound was reached. -/
def cds_lfq_enqueue_rcu :
    Nat → cds_lfq_queue_rcu → Mem → Nat → Option (cds_lfq_queue_rcu × Mem)
  | 0, _, _, _ => none
  | fuel + 1, q, mem, node =>
    let tail := q.tail
    match mem.next tail with
    | none =>
      -- CAS(tail->next, absent, node) succeeds; best-effort swing of the tail
      some ({ q with tail := (cas q.tail tail node).1 },
            { mem with next := upd mem.next tail (some node) })
    | some nxt =>
      -- CAS(tail->next, absent, node) fails: complete the swing, retry
      cds_lfq_enqueue_rcu fuel { q with tail := (cas q.tail tail nxt).1 } mem node

/-- Modelled from the spec: `cds_lfq_dequeue_rcu` is library code.  "read head
and head's next reference; if next is absent, queue is empty, return absent.
Otherwise attempt to swing head to next via compare-and-swap; on success ...
the returned payload is recovered from `next`, which becomes the new sentinel
in place.  Retries on CAS failure with a fresh read."  The retry loop is
bounded by `fuel`; the outer `none` means the bound was reached, the inner
option is the returned node. -/
def cds_lfq_dequeue_rcu :
    Nat → cds_lfq_queue_rcu → Mem → Option (Option Nat × cds_lfq_queue_rcu)
  | 0, _, _ => none
  | fuel + 1, q, mem =>
    let head := q.head
    match mem.next head with
    | none => some (none, q)
    | some next =>
      let swing := cas q.head head next
      if swing.2 then some (some next, { q with head := swing.1 })
      else cds_lfq_dequeue_rcu fuel q mem

/-- Modelled from the spec: `cds_lfq_destroy_rcu` is library code.  "`destroy()`:
fails with a non-empty-queue error if head ≠ tail (elements remain); otherwise
releases the sentinel and returns success."  Success is `0` (what `main` tests
with `if (ret)`); the error value is the parameter `non_empty_error`.  The
second component is the list of sentinels released so far. -/
def cds_lfq_destroy_rcu (non_empty_error : Int) (q : cds_lfq_queue_rcu)
    (released : List Nat) : Int × List Nat :=
  if q.head ≠ q.tail then (non_empty_error, released)
  else (0, released ++ [q.head])

/-! ## The program state -/

/-- Calls into the two libraries, in the order in which `main` makes them. -/
inductive Event where
  | rcu_register_thread
  | cds_lfq_init_rcu
  | rcu_read_lock
  | cds_lfq_enqueue_rcu (node : Nat)
  | cds_lfq_dequeue_rcu (result : Option Nat)
  | rcu_read_unlock
  | call_rcu (head : Nat)
  | cds_lfq_destroy_rcu (ret : Int)
  | rcu_unregister_thread
deriving DecidableEq, Repr

/-- Everything the program can change. -/
structure World where
  /-- The heap. -/
  mem : Mem
  /-- The local variable `myqueue` of `main`. -/
  myqueue : cds_lfq_queue_rcu
  /-- The deferred-callback list of the reclamation domain: the `rcu_head`
  handed to `call_rcu` and the function to run on it. -/
  deferred : List (Nat × Callback)
  /-- Text written to standard output. -/
  stdout : String
  /-- Arguments of the calls of `free`. -/
  freed : List Nat
  /-- Sentinels released by `cds_lfq_destroy_rcu`. -/
  released : List Nat
  /-- Library calls made so far, oldest first. -/
  trace : List Event

/-- Append one library call to the trace. -/
def World.emit (w : World) (e : Event) : World :=
  { w with trace := w.trace ++ [e] }

/-- The effect of `printf` with the formatted text `s`. -/
def World.printf (w : World) (s : String) : World :=
  { w with stdout := w.stdout ++ s }

/-- Modelled from the spec: `call_rcu` is library code.  "`defer(callback,
payload_ref)`: appends a reclamation record; returns immediately; does not run
the callback synchronously." -/
def call_rcu (head : Nat) (func : Callback) (w : World) : World :=
  { w.emit (Event.call_rcu head) with deferred := w.deferred ++ [(head, func)] }

/-- The state in which `main` starts: the heap holds `mem0`, `myqueue` is not
yet initialised, nothing has been printed, deferred or released. -/
def World.initial (mem0 : Mem) : World :=
  { mem := mem0, myqueue := { head := 0, tail := 0 }, deferred := [],
    stdout := "", freed := [], released := [], trace := [] }

/-! ## The container class (source lines 148-182) -/

/-- What a call of `CONTAINER_new` can do: end the process through `abort()`,
or return a pointer (`none` is `NULL`) and a heap. -/
inductive NewResult where
  | aborted
  | returned (ptr : Option Nat) (mem : Mem)

/-- Source lines 148-164.  `malloc_result` is what `malloc` returns to this
call (`none` is `NULL`).  On `NULL` the function writes two lines to the
standard error stream and calls `abort()`; otherwise it stores `init_value`,
initialises the queue node, zeroes the `rcu_head` and returns the pointer. -/
def CONTAINER_new (L : Layout) (malloc_result : Option Nat) (init_value : Int)
    (mem : Mem) : NewResult :=
  match malloc_result with
  | none => NewResult.aborted
  | some ptr =>
    let mem1 := { mem with value := upd mem.value (ptr + offsetof_value L) init_value }
    let mem2 := cds_lfq_node_init_rcu (ptr + offsetof_member2 L) mem1
    let mem3 := { mem2 with rcu_head := upd mem2.rcu_head (ptr + offsetof_rcu_head L) none }
    NewResult.returned (some ptr) mem3

/-- Source lines 166-174: recover the container from its `rcu_head` and `free` it. -/
def CONTAINER_free_callback (L : Layout) (rcu_head_ptr : Nat) (w : World) : World :=
  let container_ptr := get_container_ptr_by_member3 L rcu_head_ptr
  { w with freed := w.freed ++ [container_ptr] }

/-- Source lines 179-182: `call_rcu(&ptr->rcu_head, CONTAINER_free_callback)`. -/
def CONTAINER_free (L : Layout) (ptr : Nat) (w : World) : World :=
  call_rcu (ptr + offsetof_rcu_head L) Callback.CONTAINER_free_callback w

/-- What the program runs against: the layout of `struct container`, the
address of the sentinel that `cds_lfq_init_rcu` installs, the error value of
`cds_lfq_destroy_rcu`, and the heap at program start. -/
structure Env where
  layout : Layout
  sentinel : Nat
  non_empty_error : Int
  mem0 : Mem

/-- How a block of `main` hands control on. -/
inductive Flow where
  /-- Control reaches the statement after the block. -/
  | next
  /-- The block executed `break`. -/
  | brk
  /-- The block executed `ret = -1; goto end;`. -/
  | goto_end
  /-- The function `abort()` was called. -/
  | abort
  /-- A retry loop used up its bound. -/
  | stuck
deriving DecidableEq, Repr

/-- How a run of the program ends. -/
inductive Outcome where
  /-- The function `main` returned `ret`. -/
  | exited (ret : Int)
  /-- The process was ended by `abort()`. -/
  | aborted
  /-- A loop used up its bound. -/
  | diverged
deriving DecidableEq, Repr

/-- Body of the enqueue loop, source lines 67-81, for the array element `v`.
`new` is the constructor that `main` calls through the declaration of line 41
and `malloc_result` what `malloc` answers during that call. -/
def main_enqueue_body (E : Env) (new : Layout → Option Nat → Int → Mem → NewResult)
    (fuel : Nat) (v : Int) (malloc_result : Option Nat) (w : World) : Flow × World :=
  match new E.layout malloc_result v w.mem with
  | NewResult.aborted => (Flow.abort, w)
  | NewResult.returned none mem1 => (Flow.goto_end, { w with mem := mem1 })
  | NewResult.returned (some container_ptr) mem1 =>
    let w1 := ({ w with mem := mem1 }).emit Event.rcu_read_lock
    let member2 := container_ptr + offsetof_member2 E.layout
    let w2 := w1.emit (Event.cds_lfq_enqueue_rcu member2)
    match cds_lfq_enqueue_rcu fuel w2.myqueue w2.mem member2 with
    | none => (Flow.stuck, w2)
    | some (q, mem2) =>
      (Flow.next, ({ w2 with myqueue := q, mem := mem2 }).emit Event.rcu_read_unlock)

/-- The enqueue loop, source lines 66-82, over the array `values`; `mallocs`
lists what the successive calls of `malloc` return (an exhausted list is
`NULL`). -/
def main_enqueue_loop (E : Env) (new : Layout → Option Nat → Int → Mem → NewResult)
    (fuel : Nat) : List Int → List (Option Nat) → World → Flow × World
  | [], _, w => (Flow.next, w)
  | v :: rest, mallocs, w =>
    match main_enqueue_body E new fuel v (mallocs.headD none) w with
    | (Flow.next, w1) => main_enqueue_loop E new fuel rest mallocs.tail w1
    | other => other

/-- Body of the dequeue loop, source lines 90-106. -/
def main_dequeue_body (E : Env) (fuel : Nat) (w : World) : Flow × World :=
  let w1 := w.emit Event.rcu_read_lock
  match cds_lfq_dequeue_rcu fuel w1.myqueue w1.mem with
  | none => (Flow.stuck, w1)
  | some (member2_ptr, q) =>
    let w2 := ({ w1 with myqueue := q }).emit (Event.cds_lfq_dequeue_rcu member2_ptr)
    let w3 := w2.emit Event.rcu_read_unlock
    match member2_ptr with
    | none => (Flow.brk, w3)
    | some m =>
      let container_ptr := get_container_ptr_by_member2 E.layout m
      let w4 := w3.printf (" " ++ toString (w3.mem.value (container_ptr + offsetof_value E.layout)))
      (Flow.next, CONTAINER_free E.layout container_ptr w4)

/-- The dequeue loop `for (;;)`, source lines 89-107, bounded by `n` rounds. -/
def main_dequeue_loop (E : Env) (fuel : Nat) : Nat → World → Flow × World
  | 0, w => (Flow.stuck, w)
  | n + 1, w =>
    match main_dequeue_body E fuel w with
    | (Flow.next, w1) => main_dequeue_loop E fuel n w1
    | (Flow.brk, w1) => (Flow.next, w1)
    | other => other

/-- The label `end:`, source lines 116-118. -/
def main_end (ret : Int) (w : World) : Outcome × World :=
  (Outcome.exited ret, w.emit Event.rcu_unregister_thread)

/-- Source lines 108-118: end the output line, destroy the queue, report a
failure, unregister and return. -/
def main_teardown (E : Env) (w : World) : Outcome × World :=
  let w1 := w.printf "\n"
  let r := cds_lfq_destroy_rcu E.non_empty_error w1.myqueue w1.released
  let ret := r.1
  let w2 := ({ w1 with released := r.2 }).emit (Event.cds_lfq_destroy_rcu ret)
  let w3 := if ret ≠ 0 then w2.printf "Error destroying queue (non-empty)\n" else w2
  main_end ret w3

/-- Source lines 59-61: register the thread, initialise the queue. -/
def main_start (E : Env) : World :=
  let w0 := (World.initial E.mem0).emit Event.rcu_register_thread
  let qi := cds_lfq_init_rcu E.sentinel w0.mem
  ({ w0 with myqueue := qi.1, mem := qi.2 }).emit Event.cds_lfq_init_rcu

/-- The function `main` for an arbitrary content `values` of its array and an
arbitrary constructor `new`; `fuel` bounds the retry loops of the queue and
the rounds of the dequeue loop. -/
def main_with (E : Env) (new : Layout → Option Nat → Int → Mem → NewResult)
    (fuel : Nat) (values : List Int) (mallocs : List (Option Nat)) : Outcome × World :=
  match main_enqueue_loop E new fuel values mallocs (main_start E) with
  | (Flow.next, w2) =>
    match main_dequeue_loop E fuel fuel (w2.printf "dequeued content:") with
    | (Flow.stuck, w3) => (Outcome.diverged, w3)
    | (_, w3) => main_teardown E w3
  | (Flow.goto_end, w2) => main_end (-1) w2
  | (Flow.abort, w2) => (Outcome.aborted, w2)
  | (_, w2) => (Outcome.diverged, w2)

/-- Source line 49: `int values[] = \x7b -5, 42, 36, 24, \x7d;`. -/
def values : List Int := [-5, 42, 36, 24]

/-- The program: `main` with its own array and the `CONTAINER_new` of the
source. -/
def main (E : Env) (fuel : Nat) (mallocs : List (Option Nat)) : Outcome × World :=
  main_with E CONTAINER_new fuel values mallocs

/-! ## Observations on a run -/

/-- Nodes handed to `cds_lfq_enqueue_rcu`, oldest first. -/
def enqueued : List Event → List Nat
  | [] => []
  | Event.cds_lfq_enqueue_rcu node :: t => node :: enqueued t
  | _ :: t => enqueued t

/-- Nodes returned by `cds_lfq_dequeue_rcu`, oldest first. -/
def dequeued : List Event → List Nat
  | [] => []
  | Event.cds_lfq_dequeue_rcu (some node) :: t => node :: dequeued t
  | _ :: t => dequeued t

/-- Results of the calls of `cds_lfq_dequeue_rcu`, oldest first. -/
def dequeue_results : List Event → List (Option Nat)
  | [] => []
  | Event.cds_lfq_dequeue_rcu r :: t => r :: dequeue_results t
  | _ :: t => dequeue_results t

/-- Results of the calls of `cds_lfq_destroy_rcu`, oldest first. -/
def destroy_results : List Event → List Int
  | [] => []
  | Event.cds_lfq_destroy_rcu r :: t => r :: destroy_results t
  | _ :: t => destroy_results t

/-- Arguments of the calls of `call_rcu`, oldest first. -/
def deferred_heads : List Event → List Nat
  | [] => []
  | Event.call_rcu h :: t => h :: deferred_heads t
  | _ :: t => deferred_heads t

/-- The text that the dequeue loop prints for the values `vs`: each value in
decimal (`%d`) after one space. -/
def printed : List Int → String
  | [] => ""
  | v :: vs => (" " ++ toString v) ++ printed vs

/-! ## Arbitrary sequences of queue operations -/

/-- One round of the enqueue loop for the value `init_value`, or one round of
the dequeue loop. -/
inductive Op where
  | enqueue (init_value : Int)
  | dequeue
deriving DecidableEq, Repr

/-- Run the loop bodies of `main` in the order given by the list; an enqueue
round takes the next answer of `malloc`.  The flow is `next` when every round
ran to its end. -/
def run_ops (E : Env) (fuel : Nat) : List Op → List (Option Nat) → World → Flow × World
  | [], _, w => (Flow.next, w)
  | Op.enqueue v :: ops, mallocs, w =>
    match main_enqueue_body E CONTAINER_new fuel v (mallocs.headD none) w with
    | (Flow.next, w1) => run_ops E fuel ops mallocs.tail w1
    | other => other
  | Op.dequeue :: ops, mallocs, w =>
    match main_dequeue_body E fuel w with
    | (Flow.stuck, w1) => (Flow.stuck, w1)
    | (_, w1) => run_ops E fuel ops mallocs w1

/-- Number of enqueue rounds in a sequence of operations. -/
def enqueue_count : List Op → Nat
  | [] => 0
  | Op.enqueue _ :: ops => enqueue_count ops + 1
  | Op.dequeue :: ops => enqueue_count ops

/-- The state after the operations `ops`, run from the state in which `main`
enters its enqueue loop. -/
def state_after (E : Env) (fuel : Nat) (ops : List Op) (mallocs : List (Option Nat)) :
    World :=
  (run_ops E fuel ops mallocs (main_start E)).2

/-- The nodes that have been enqueued and not yet returned by a dequeue, in
enqueue order. -/
def pending_nodes (w : World) : List Nat :=
  (enqueued w.trace).drop (dequeued w.trace).length

/-! ## Shape of the queue -/

/-- The `next` references lead from `h` through exactly the nodes of the list
to `t`, whose own reference is absent. -/
def Linked (next : Nat → Option Nat) : Nat → List Nat → Nat → Prop
  | h, [], t => h = t ∧ next h = none
  | h, x :: xs, t => next h = some x ∧ Linked next x xs t

/-- The queue node of the container `c` (address and value). -/
def node_of (L : Layout) (c : Nat × Int) : Nat := c.1 + offsetof_member2 L

/-- The deferred record that `CONTAINER_free` makes for the container `c`. -/
def record_of (L : Layout) (c : Nat × Int) : Nat × Callback :=
  (c.1 + offsetof_rcu_head L, Callback.CONTAINER_free_callback)

/-- The state of a run in which the containers `ret` have been enqueued and
dequeued and the containers `pend` have been enqueued only. -/
structure Inv (E : Env) (w : World) (ret pend : List (Nat × Int)) : Prop where
  nodup : (E.sentinel :: (ret ++ pend).map (node_of E.layout)).Nodup
  linked : Linked w.mem.next w.myqueue.head (pend.map (node_of E.layout)) w.myqueue.tail
  head : w.myqueue.head = (ret.map (node_of E.layout)).getLastD E.sentinel
  vals : ∀ c ∈ ret ++ pend, w.mem.value c.1 = c.2
  deferred : w.deferred = ret.map (record_of E.layout)
  tr_enq : enqueued w.trace = (ret ++ pend).map (node_of E.layout)
  tr_deq : dequeued w.trace = ret.map (node_of E.layout)
  tr_defer : deferred_heads w.trace = ret.map (fun c => c.1 + offsetof_rcu_head E.layout)
  freed : w.freed = []
  released : w.released = []

/-- Where the thread stands with respect to the reclamation domain. -/
inductive Phase where
  /-- Not yet registered. -/
  | fresh
  /-- Registered, no read section open. -/
  | idle
  /-- Registered, exactly one read section open. -/
  | reading
  /-- Unregistered. -/
  | finished
deriving DecidableEq, Repr

/-- One library call seen from a phase: the phase after the call, or `none`
when the call breaks the discipline.  Registration comes first and once; a
read section is opened only when none is open and closed only when one is
open; the queue is touched only inside a read section; the thread unregisters
only with no section open, and makes no call afterwards. -/
def Phase.step : Phase → Event → Option Phase
  | Phase.fresh, Event.rcu_register_thread => some Phase.idle
  | Phase.idle, Event.rcu_read_lock => some Phase.reading
  | Phase.reading, Event.rcu_read_unlock => some Phase.idle
  | Phase.reading, Event.cds_lfq_enqueue_rcu _ => some Phase.reading
  | Phase.reading, Event.cds_lfq_dequeue_rcu _ => some Phase.reading
  | Phase.idle, Event.rcu_unregister_thread => some Phase.finished
  | Phase.finished, _ => none
  | p, Event.cds_lfq_init_rcu => some p
  | p, Event.call_rcu _ => some p
  | p, Event.cds_lfq_destroy_rcu _ => some p
  | _, _ => none

/-- Follow a trace from a phase. -/
def Phase.run : Phase → List Event → Option Phase
  | p, [] => some p
  | p, e :: t => match p.step e with
    | none => none
    | some p1 => Phase.run p1 t

/-- The phase a whole trace ends in, `none` when it breaks the discipline. -/
def discipline (trace : List Event) : Option Phase := Phase.run Phase.fresh trace

/-- A concrete environment: LP64 layout, sentinel at 4096, error value -1, and a
heap whose cells hold leftovers (every `next` cell refers to the following
address). -/
def E0 : Env :=
  { layout := LP64, sentinel := 4096, non_empty_error := -1,
    mem0 := { value := fun _ => 7, next := fun a => some (a + 1), rcu_head := fun _ => none } }

/-! ## Address arithmetic -/

theorem upd_same {β : Type} (f : Nat → β) (a : Nat) (v : β) : upd f a v a = v := by
  simp [upd]

theorem upd_ne {β : Type} (f : Nat → β) {a b : Nat} (v : β) (h : b ≠ a) :
    upd f a v b = f b := by
  simp [upd, h]

/-! ## Observations distribute over a growing trace -/

theorem enqueued_append (a b : List Event) : enqueued (a ++ b) = enqueued a ++ enqueued b := by
  induction a with
  | nil => rfl
  | cons e t ih => cases e <;> simp [enqueued, ih]

theorem dequeued_append (a b : List Event) : dequeued (a ++ b) = dequeued a ++ dequeued b := by
  induction a with
  | nil => rfl
  | cons e t ih =>
    cases e with
    | cds_lfq_dequeue_rcu r => cases r <;> simp [dequeued, ih]
    | _ => simp [dequeued, ih]

theorem dequeue_results_append (a b : List Event) :
    dequeue_results (a ++ b) = dequeue_results a ++ dequeue_results b := by
  induction a with
  | nil => rfl
  | cons e t ih => cases e <;> simp [dequeue_results, ih]

theorem deferred_heads_append (a b : List Event) :
    deferred_heads (a ++ b) = deferred_heads a ++ deferred_heads b := by
  induction a with
  | nil => rfl
  | cons e t ih => cases e <;> simp [deferred_heads, ih]

theorem destroy_results_append (a b : List Event) :
    destroy_results (a ++ b) = destroy_results a ++ destroy_results b := by
  induction a with
  | nil => rfl
  | cons e t ih => cases e <;> simp [destroy_results, ih]

/-! ## The queue operations on a well-formed queue -/

theorem Linked.tail_next {next : Nat → Option Nat} {l : List Nat} {h t : Nat}
    (hl : Linked next h l t) : next t = none := by
  induction l generalizing h with
  | nil => obtain ⟨rfl, hn⟩ := hl; exact hn
  | cons x xs ih => exact ih hl.2

theorem Linked.tail_eq {next : Nat → Option Nat} {l : List Nat} {h t : Nat}
    (hl : Linked next h l t) : t = l.getLastD h := by
  induction l generalizing h with
  | nil => exact hl.1.symm
  | cons x xs ih =>
    have := ih hl.2
    rw [this]
    cases xs <;> simp [List.getLastD]

theorem Linked.tail_mem {next : Nat → Option Nat} {l : List Nat} {h t : Nat}
    (hl : Linked next h l t) : t ∈ h :: l := by
  induction l generalizing h with
  | nil => simp [hl.1.symm]
  | cons x xs ih =>
    have := ih hl.2
    exact List.mem_cons_of_mem _ this

theorem Linked.frame {next next1 : Nat → Option Nat} {l : List Nat} {h t : Nat}
    (hl : Linked next h l t) (hsame : ∀ a ∈ h :: l, next1 a = next a) :
    Linked next1 h l t := by
  induction l generalizing h with
  | nil =>
    refine ⟨hl.1, ?_⟩
    rw [hsame h (by simp)]; exact hl.2
  | cons x xs ih =>
    refine ⟨?_, ih hl.2 ?_⟩
    · rw [hsame h (by simp)]; exact hl.1
    · intro a ha; exact hsame a (List.mem_cons_of_mem _ ha)

theorem Linked.snoc {next : Nat → Option Nat} {l : List Nat} {h t x : Nat}
    (hl : Linked next h l t) (hnd : (h :: l).Nodup) (hx : x ∉ h :: l)
    (hxn : next x = none) :
    Linked (upd next t (some x)) h (l ++ [x]) x := by
  induction l generalizing h with
  | nil =>
    obtain ⟨rfl, _⟩ := hl
    have hxh : x ≠ h := by simpa using hx
    exact ⟨upd_same _ _ _, rfl, by rw [upd_ne _ _ hxh]; exact hxn⟩
  | cons y ys ih =>
    have hnd1 : (y :: ys).Nodup := (List.nodup_cons.mp hnd).2
    have hhy : h ∉ y :: ys := (List.nodup_cons.mp hnd).1
    have ht : t ∈ y :: ys := hl.2.tail_mem
    have hht : h ≠ t := fun e => hhy (e ▸ ht)
    refine ⟨?_, ih hl.2 hnd1 ?_⟩
    · rw [upd_ne _ _ hht]; exact hl.1
    · intro hm; exact hx (List.mem_cons_of_mem _ hm)

theorem enqueue_of_linked {mem : Mem} {q : cds_lfq_queue_rcu} {l : List Nat}
    (hl : Linked mem.next q.head l q.tail) (fuel node : Nat) :
    cds_lfq_enqueue_rcu (fuel + 1) q mem node =
      some ({ q with tail := node }, { mem with next := upd mem.next q.tail (some node) }) := by
  have hn := hl.tail_next
  simp [cds_lfq_enqueue_rcu, hn, cas]

theorem dequeue_of_linked_cons {mem : Mem} {q : cds_lfq_queue_rcu} {x : Nat} {l : List Nat}
    (hl : Linked mem.next q.head (x :: l) q.tail) (fuel : Nat) :
    cds_lfq_dequeue_rcu (fuel + 1) q mem = some (some x, { q with head := x }) := by
  have hn : mem.next q.head = some x := hl.1
  simp [cds_lfq_dequeue_rcu, hn, cas]

theorem dequeue_of_linked_nil {mem : Mem} {q : cds_lfq_queue_rcu}
    (hl : Linked mem.next q.head [] q.tail) (fuel : Nat) :
    cds_lfq_dequeue_rcu (fuel + 1) q mem = some (none, q) := by
  have hn : mem.next q.head = none := hl.2
  simp [cds_lfq_dequeue_rcu, hn]

theorem getLastD_mem_cons (l : List Nat) (a : Nat) : l.getLastD a ∈ a :: l := by
  induction l generalizing a with
  | nil => simp
  | cons x xs ih =>
    have := ih x
    simp only [List.getLastD_cons]
    exact List.mem_cons_of_mem _ this

theorem Inv.head_mem {E : Env} {w : World} {ret pend : List (Nat × Int)}
    (hI : Inv E w ret pend) :
    w.myqueue.head ∈ E.sentinel :: ret.map (node_of E.layout) := by
  rw [hI.head]; exact getLastD_mem_cons _ _

theorem Inv.chain_nodup {E : Env} {w : World} {ret pend : List (Nat × Int)}
    (hI : Inv E w ret pend) :
    (w.myqueue.head :: pend.map (node_of E.layout)).Nodup := by
  have hnd := hI.nodup
  rw [List.map_append, ← List.cons_append] at hnd
  have hdis := List.disjoint_of_nodup_append hnd
  refine List.nodup_cons.mpr ⟨fun hm => hdis hI.head_mem hm, ?_⟩
  exact (List.nodup_append.mp hnd).2.1

theorem Inv.fresh_ne {E : Env} {w : World} {ret pend : List (Nat × Int)}
    (_hI : Inv E w ret pend) {p : Nat}
    (hfresh : p + offsetof_member2 E.layout ∉
      E.sentinel :: (ret ++ pend).map (node_of E.layout))
    {c : Nat × Int} (hc : c ∈ ret ++ pend) : c.1 ≠ p := by
  intro e
  apply hfresh
  refine List.mem_cons_of_mem _ (List.mem_map.mpr ⟨c, hc, ?_⟩)
  simp [node_of, e]

theorem enqueue_body_eq {E : Env} {w : World} {ret pend : List (Nat × Int)}
    (hI : Inv E w ret pend) (p : Nat) (v : Int) (fuel : Nat)
    (hfresh : p + offsetof_member2 E.layout ∉
      E.sentinel :: (ret ++ pend).map (node_of E.layout)) :
    main_enqueue_body E CONTAINER_new (fuel + 1) v (some p) w =
      (Flow.next,
        { w with
          mem :=
            { value := upd w.mem.value (p + offsetof_value E.layout) v
              next := upd (upd w.mem.next (p + offsetof_member2 E.layout) none)
                w.myqueue.tail (some (p + offsetof_member2 E.layout))
              rcu_head := upd w.mem.rcu_head (p + offsetof_rcu_head E.layout) none }
          myqueue := { w.myqueue with tail := p + offsetof_member2 E.layout }
          trace := w.trace ++ [Event.rcu_read_lock] ++
            [Event.cds_lfq_enqueue_rcu (p + offsetof_member2 E.layout)] ++
            [Event.rcu_read_unlock] }) := by
  have hch := hI.chain_nodup
  have hnot : p + offsetof_member2 E.layout ∉
      w.myqueue.head :: pend.map (node_of E.layout) := by
    intro hm
    apply hfresh
    rcases List.mem_cons.mp hm with e | hm2
    · rw [e]
      have := hI.head_mem
      rcases List.mem_cons.mp this with e2 | hm3
      · rw [e2]; simp
      · exact List.mem_cons_of_mem _ (by
          rw [List.map_append]; exact List.mem_append_left _ hm3)
    · exact List.mem_cons_of_mem _ (by
        rw [List.map_append]; exact List.mem_append_right _ hm2)
  have hl1 : Linked (upd w.mem.next (p + offsetof_member2 E.layout) none)
      w.myqueue.head (pend.map (node_of E.layout)) w.myqueue.tail := by
    refine hI.linked.frame ?_
    intro a ha
    exact upd_ne _ _ (fun e => hnot (e ▸ ha))
  have hn := hl1.tail_next
  simp only [main_enqueue_body, CONTAINER_new, cds_lfq_node_init_rcu, World.emit]
  simp [cds_lfq_enqueue_rcu, hn, cas]

theorem enqueue_body_inv {E : Env} {w : World} {ret pend : List (Nat × Int)}
    (hI : Inv E w ret pend) (p : Nat) (v : Int) (fuel : Nat)
    (hfresh : p + offsetof_member2 E.layout ∉
      E.sentinel :: (ret ++ pend).map (node_of E.layout)) :
    Inv E (main_enqueue_body E CONTAINER_new (fuel + 1) v (some p) w).2 ret
      (pend ++ [(p, v)]) := by
  rw [enqueue_body_eq hI p v fuel hfresh]
  have hch := hI.chain_nodup
  have hnot : p + offsetof_member2 E.layout ∉
      w.myqueue.head :: pend.map (node_of E.layout) := by
    intro hm
    apply hfresh
    rcases List.mem_cons.mp hm with e | hm2
    · rw [e]
      rcases List.mem_cons.mp hI.head_mem with e2 | hm3
      · rw [e2]; simp
      · exact List.mem_cons_of_mem _ (by
          rw [List.map_append]; exact List.mem_append_left _ hm3)
    · exact List.mem_cons_of_mem _ (by
        rw [List.map_append]; exact List.mem_append_right _ hm2)
  have hl1 : Linked (upd w.mem.next (p + offsetof_member2 E.layout) none)
      w.myqueue.head (pend.map (node_of E.layout)) w.myqueue.tail := by
    refine hI.linked.frame ?_
    intro a ha
    exact upd_ne _ _ (fun e => hnot (e ▸ ha))
  refine
    { nodup := ?_, linked := ?_, head := hI.head, vals := ?_, deferred := hI.deferred,
      tr_enq := ?_, tr_deq := ?_, tr_defer := ?_, freed := hI.freed,
      released := hI.released }
  · have hnd := hI.nodup
    rw [← List.append_assoc, List.map_append, ← List.cons_append]
    refine List.Nodup.append hnd (by simp) ?_
    intro a ha hb
    have : a = p + offsetof_member2 E.layout := by simpa [node_of] using hb
    exact hfresh (this ▸ ha)
  · have := hl1.snoc hch hnot (upd_same _ _ _)
    simpa [node_of] using this
  · intro c hc
    rw [← List.append_assoc] at hc
    rcases List.mem_append.mp hc with hold | hnew
    · have hne := hI.fresh_ne hfresh hold
      show upd w.mem.value (p + offsetof_value E.layout) v c.1 = c.2
      rw [upd_ne _ _ (by simpa [offsetof_value] using hne)]
      exact hI.vals c hold
    · have : c = (p, v) := by simpa using hnew
      subst this
      show upd w.mem.value (p + offsetof_value E.layout) v p = v
      simp [offsetof_value, upd]
  · show enqueued (w.trace ++ _ ++ _ ++ _) = _
    simp [enqueued_append, enqueued, hI.tr_enq, node_of]
  · show dequeued (w.trace ++ _ ++ _ ++ _) = _
    simp [dequeued_append, dequeued, hI.tr_deq]
  · show deferred_heads (w.trace ++ _ ++ _ ++ _) = _
    simp [deferred_heads_append, deferred_heads, hI.tr_defer]

theorem dequeue_body_cons_eq {E : Env} {w : World} {ret pend : List (Nat × Int)}
    {c : Nat × Int} (hI : Inv E w ret (c :: pend)) (fuel : Nat) :
    main_dequeue_body E (fuel + 1) w =
      (Flow.next,
        { w with
          myqueue := { w.myqueue with head := node_of E.layout c }
          stdout := w.stdout ++ (" " ++ toString c.2)
          deferred := w.deferred ++ [record_of E.layout c]
          trace := w.trace ++ [Event.rcu_read_lock] ++
            [Event.cds_lfq_dequeue_rcu (some (node_of E.layout c))] ++
            [Event.rcu_read_unlock] ++
            [Event.call_rcu (c.1 + offsetof_rcu_head E.layout)] }) := by
  have hn : w.mem.next w.myqueue.head = some (node_of E.layout c) := hI.linked.1
  have hv : w.mem.value c.1 = c.2 := hI.vals c (by simp)
  simp [main_dequeue_body, World.emit, cds_lfq_dequeue_rcu, hn, cas, World.printf,
    CONTAINER_free, call_rcu, get_container_ptr_by_member2, node_of, offsetof_value, hv,
    record_of]

theorem dequeue_body_cons_inv {E : Env} {w : World} {ret pend : List (Nat × Int)}
    {c : Nat × Int} (hI : Inv E w ret (c :: pend)) (fuel : Nat) :
    Inv E (main_dequeue_body E (fuel + 1) w).2 (ret ++ [c]) pend := by
  rw [dequeue_body_cons_eq hI fuel]
  refine
    { nodup := ?_, linked := hI.linked.2, head := ?_, vals := ?_, deferred := ?_,
      tr_enq := ?_, tr_deq := ?_, tr_defer := ?_, freed := hI.freed,
      released := hI.released }
  · simpa using hI.nodup
  · simp
  · simpa using hI.vals
  · simp [hI.deferred]
  · show enqueued (w.trace ++ _ ++ _ ++ _ ++ _) = _
    simp [enqueued_append, enqueued, hI.tr_enq]
  · show dequeued (w.trace ++ _ ++ _ ++ _ ++ _) = _
    simp [dequeued_append, dequeued, hI.tr_deq]
  · show deferred_heads (w.trace ++ _ ++ _ ++ _ ++ _) = _
    simp [deferred_heads_append, deferred_heads, hI.tr_defer]

theorem dequeue_body_nil_eq {E : Env} {w : World} {ret : List (Nat × Int)}
    (hI : Inv E w ret []) (fuel : Nat) :
    main_dequeue_body E (fuel + 1) w =
      (Flow.brk,
        { w with
          trace := w.trace ++ [Event.rcu_read_lock] ++
            [Event.cds_lfq_dequeue_rcu none] ++ [Event.rcu_read_unlock] }) := by
  have hn : w.mem.next w.myqueue.head = none := hI.linked.2
  simp [main_dequeue_body, World.emit, cds_lfq_dequeue_rcu, hn]

theorem dequeue_body_nil_inv {E : Env} {w : World} {ret : List (Nat × Int)}
    (hI : Inv E w ret []) (fuel : Nat) :
    Inv E (main_dequeue_body E (fuel + 1) w).2 ret [] := by
  rw [dequeue_body_nil_eq hI fuel]
  refine
    { nodup := hI.nodup, linked := hI.linked, head := hI.head, vals := hI.vals,
      deferred := hI.deferred, tr_enq := ?_, tr_deq := ?_, tr_defer := ?_,
      freed := hI.freed, released := hI.released }
  · show enqueued (w.trace ++ _ ++ _ ++ _) = _
    simp [enqueued_append, enqueued, hI.tr_enq]
  · show dequeued (w.trace ++ _ ++ _ ++ _) = _
    simp [dequeued_append, dequeued, hI.tr_deq]
  · show deferred_heads (w.trace ++ _ ++ _ ++ _) = _
    simp [deferred_heads_append, deferred_heads, hI.tr_defer]

theorem main_start_inv (E : Env) : Inv E (main_start E) [] [] := by
  refine
    { nodup := by simp, linked := ?_, head := rfl, vals := by simp, deferred := rfl,
      tr_enq := rfl, tr_deq := rfl, tr_defer := rfl, freed := rfl,
      released := rfl }
  exact ⟨rfl, upd_same _ _ _⟩

theorem Inv.printf {E : Env} {w : World} {ret pend : List (Nat × Int)}
    (hI : Inv E w ret pend) (s : String) : Inv E (w.printf s) ret pend :=
  { nodup := hI.nodup, linked := hI.linked, head := hI.head, vals := hI.vals,
    deferred := hI.deferred, tr_enq := hI.tr_enq, tr_deq := hI.tr_deq,
    tr_defer := hI.tr_defer, freed := hI.freed,
    released := hI.released }

/-! ## The loops of `main` -/

theorem printed_append (a b : List Int) : printed (a ++ b) = printed a ++ printed b := by
  induction a with
  | nil => simp [printed]
  | cons v vs ih => simp [printed, ih, String.append_assoc]

theorem enqueue_loop_spec (E : Env) (fuel : Nat) (more : List (Option Nat))
    (cs : List (Nat × Int)) :
    ∀ (w : World) (ret pend : List (Nat × Int)), Inv E w ret pend →
      (E.sentinel :: (ret ++ pend ++ cs).map (node_of E.layout)).Nodup →
      (main_enqueue_loop E CONTAINER_new (fuel + 1) (cs.map Prod.snd)
          (cs.map (fun c => some c.1) ++ more) w).1 = Flow.next ∧
      Inv E (main_enqueue_loop E CONTAINER_new (fuel + 1) (cs.map Prod.snd)
          (cs.map (fun c => some c.1) ++ more) w).2 ret (pend ++ cs) ∧
      (main_enqueue_loop E CONTAINER_new (fuel + 1) (cs.map Prod.snd)
          (cs.map (fun c => some c.1) ++ more) w).2.stdout = w.stdout ∧
      dequeue_results (main_enqueue_loop E CONTAINER_new (fuel + 1) (cs.map Prod.snd)
          (cs.map (fun c => some c.1) ++ more) w).2.trace = dequeue_results w.trace ∧
      destroy_results (main_enqueue_loop E CONTAINER_new (fuel + 1) (cs.map Prod.snd)
          (cs.map (fun c => some c.1) ++ more) w).2.trace = destroy_results w.trace := by
  induction cs with
  | nil =>
    intro w ret pend hI _
    simpa [main_enqueue_loop] using hI
  | cons c cs ih =>
    intro w ret pend hI hnd
    have hfresh : c.1 + offsetof_member2 E.layout ∉
        E.sentinel :: (ret ++ pend).map (node_of E.layout) := by
      have h1 : (E.sentinel :: ((ret ++ pend).map (node_of E.layout) ++
          (node_of E.layout c :: cs.map (node_of E.layout)))).Nodup := by
        simpa using hnd
      rw [← List.cons_append] at h1
      intro hm
      exact List.disjoint_of_nodup_append h1 hm (by simp [node_of])
    have heq := enqueue_body_eq hI c.1 c.2 fuel hfresh
    have hinv := enqueue_body_inv hI c.1 c.2 fuel hfresh
    rw [heq] at hinv
    have hnd2 : (E.sentinel :: (ret ++ (pend ++ [(c.1, c.2)]) ++ cs).map
        (node_of E.layout)).Nodup := by
      simpa using hnd
    obtain ⟨h1, h2, h3, h4, h5⟩ := ih _ ret (pend ++ [(c.1, c.2)]) hinv hnd2
    simp only [main_enqueue_loop, List.map_cons, List.cons_append, List.headD_cons,
      List.tail_cons, heq]
    refine ⟨h1, ?_, h3, ?_, ?_⟩
    · simpa using h2
    · rw [h4]
      simp [dequeue_results_append, dequeue_results]
    · rw [h5]
      simp [destroy_results_append, destroy_results]

theorem dequeue_loop_spec (E : Env) (fuel : Nat) (pend : List (Nat × Int)) :
    ∀ (n : Nat) (w : World) (ret : List (Nat × Int)), Inv E w ret pend →
      pend.length < n →
      (main_dequeue_loop E (fuel + 1) n w).1 = Flow.next ∧
      Inv E (main_dequeue_loop E (fuel + 1) n w).2 (ret ++ pend) [] ∧
      (main_dequeue_loop E (fuel + 1) n w).2.stdout =
        w.stdout ++ printed (pend.map Prod.snd) ∧
      dequeue_results (main_dequeue_loop E (fuel + 1) n w).2.trace =
        dequeue_results w.trace ++ (pend.map (node_of E.layout)).map some ++ [none] ∧
      destroy_results (main_dequeue_loop E (fuel + 1) n w).2.trace =
        destroy_results w.trace := by
  induction pend with
  | nil =>
    intro n w ret hI hn
    obtain ⟨m, rfl⟩ : ∃ m, n = m + 1 := ⟨n - 1, by simp at hn; omega⟩
    have heq := dequeue_body_nil_eq hI fuel
    have hinv := dequeue_body_nil_inv hI fuel
    rw [heq] at hinv
    simp only [main_dequeue_loop, heq]
    refine ⟨trivial, by simpa using hinv, by simp [printed], ?_, ?_⟩
    · simp [dequeue_results_append, dequeue_results]
    · simp [destroy_results_append, destroy_results]
  | cons c pend ih =>
    intro n w ret hI hn
    obtain ⟨m, rfl⟩ : ∃ m, n = m + 1 := ⟨n - 1, by simp at hn; omega⟩
    have heq := dequeue_body_cons_eq hI fuel
    have hinv := dequeue_body_cons_inv hI fuel
    rw [heq] at hinv
    obtain ⟨h1, h2, h3, h4, h5⟩ := ih m _ (ret ++ [c]) hinv (by simp at hn; omega)
    simp only [main_dequeue_loop, heq]
    refine ⟨h1, by simpa using h2, ?_, ?_, ?_⟩
    · rw [h3]; simp [printed, String.append_assoc]
    · rw [h4]
      simp [dequeue_results_append, dequeue_results]
    · rw [h5]
      simp [destroy_results_append, destroy_results]

/-! ## Teardown -/

theorem teardown_empty_eq {E : Env} {w : World} {ret : List (Nat × Int)}
    (hI : Inv E w ret []) :
    main_teardown E w =
      (Outcome.exited 0,
        { w with
          stdout := w.stdout ++ "\n"
          released := [w.myqueue.head]
          trace := w.trace ++ [Event.cds_lfq_destroy_rcu 0] ++
            [Event.rcu_unregister_thread] }) := by
  have ht : w.myqueue.head = w.myqueue.tail := hI.linked.1
  simp [main_teardown, cds_lfq_destroy_rcu, World.printf, World.emit, main_end, ht,
    hI.released]

theorem Inv.head_ne_tail {E : Env} {w : World} {ret pend : List (Nat × Int)}
    {c : Nat × Int} (hI : Inv E w ret (c :: pend)) : w.myqueue.head ≠ w.myqueue.tail := by
  intro e
  have h1 : w.mem.next w.myqueue.head = some (node_of E.layout c) := hI.linked.1
  have h2 := hI.linked.tail_next
  rw [← e, h1] at h2
  cases h2

theorem teardown_nonempty_eq {E : Env} {w : World} {ret pend : List (Nat × Int)}
    {c : Nat × Int} (hI : Inv E w ret (c :: pend)) (herr : E.non_empty_error ≠ 0) :
    main_teardown E w =
      (Outcome.exited E.non_empty_error,
        { w with
          stdout := w.stdout ++ "\n" ++ "Error destroying queue (non-empty)\n"
          trace := w.trace ++ [Event.cds_lfq_destroy_rcu E.non_empty_error] ++
            [Event.rcu_unregister_thread] }) := by
  have ht := hI.head_ne_tail
  simp [main_teardown, cds_lfq_destroy_rcu, World.printf, World.emit, main_end, ht, herr]

/-! ## The whole run -/

theorem main_with_eq (E : Env) (fuel : Nat) (more : List (Option Nat))
    (cs : List (Nat × Int))
    (hnd : (E.sentinel :: cs.map (node_of E.layout)).Nodup) (hf : cs.length < fuel) :
    ∃ w : World, Inv E w cs [] ∧
      w.stdout = "dequeued content:" ++ printed (cs.map Prod.snd) ∧
      dequeue_results w.trace = (cs.map (node_of E.layout)).map some ++ [none] ∧
      destroy_results w.trace = [] ∧
      main_with E CONTAINER_new fuel (cs.map Prod.snd)
          (cs.map (fun c => some c.1) ++ more) =
        (Outcome.exited 0,
          { w with
            stdout := w.stdout ++ "\n"
            released := [w.myqueue.head]
            trace := w.trace ++ [Event.cds_lfq_destroy_rcu 0] ++
              [Event.rcu_unregister_thread] }) := by
  obtain ⟨f, rfl⟩ : ∃ f, fuel = f + 1 := ⟨fuel - 1, by omega⟩
  obtain ⟨h1, h2, h3, h4, h5⟩ :=
    enqueue_loop_spec E f more cs (main_start E) [] [] (main_start_inv E) (by simpa using hnd)
  generalize hL : main_enqueue_loop E CONTAINER_new (f + 1) (cs.map Prod.snd)
    (cs.map (fun c => some c.1) ++ more) (main_start E) = r1 at h1 h2 h3 h4 h5
  obtain ⟨f1, w2⟩ := r1
  simp only at h1 h2 h3 h4 h5
  subst h1
  obtain ⟨k1, k2, k3, k4, k5⟩ :=
    dequeue_loop_spec E f cs (f + 1) (w2.printf "dequeued content:") []
      ((by simpa using h2 : Inv E w2 [] cs).printf _) hf
  generalize hD : main_dequeue_loop E (f + 1) (f + 1) (w2.printf "dequeued content:") = r2
    at k1 k2 k3 k4 k5
  obtain ⟨f2, w3⟩ := r2
  simp only at k1 k2 k3 k4 k5
  subst k1
  have k2a : Inv E w3 cs [] := by simpa using k2
  refine ⟨w3, k2a, ?_, ?_, ?_, ?_⟩
  · rw [k3]
    have : (main_start E).stdout = "" := rfl
    simp [World.printf, h3, this]
  · rw [k4]
    have : dequeue_results (main_start E).trace = [] := rfl
    simp [World.printf, h4, this]
  · rw [k5]
    have : destroy_results (main_start E).trace = [] := rfl
    simp [World.printf, h5, this]
  · simp only [main_with, hL, hD]
    exact teardown_empty_eq k2a

theorem zip_map_snd {vs : List Int} {addrs : List Nat} (hlen : addrs.length = vs.length) :
    (addrs.zip vs).map Prod.snd = vs :=
  List.map_snd_zip _ _ (by omega)

theorem zip_map_some {vs : List Int} {addrs : List Nat} (hlen : addrs.length = vs.length) :
    (addrs.zip vs).map (fun c => some c.1) = addrs.map some := by
  have h := List.map_fst_zip addrs vs (by omega)
  have : (addrs.zip vs).map (fun c => some c.1) = ((addrs.zip vs).map Prod.fst).map some := by
    simp [List.map_map]
  rw [this, h]

theorem zip_map_node (L : Layout) {vs : List Int} {addrs : List Nat}
    (hlen : addrs.length = vs.length) :
    (addrs.zip vs).map (node_of L) = addrs.map (fun p => p + offsetof_member2 L) := by
  have h := List.map_fst_zip addrs vs (by omega)
  have : (addrs.zip vs).map (node_of L) =
      ((addrs.zip vs).map Prod.fst).map (fun p => p + offsetof_member2 L) := by
    simp [List.map_map, node_of, Function.comp_def]
  rw [this, h]

/-- The normal run of `main_with` on the values `vs` when the calls of `malloc`
return the addresses `addrs`, whose queue nodes are pairwise distinct and
distinct from the sentinel. -/
theorem main_with_run (E : Env) (fuel : Nat) (more : List (Option Nat)) (vs : List Int)
    (addrs : List Nat) (hlen : addrs.length = vs.length)
    (hnd : (E.sentinel :: addrs.map (fun p => p + offsetof_member2 E.layout)).Nodup)
    (hf : vs.length < fuel) :
    ∃ w : World, Inv E w (addrs.zip vs) [] ∧
      w.stdout = "dequeued content:" ++ printed vs ∧
      dequeue_results w.trace =
        (addrs.map (fun p => p + offsetof_member2 E.layout)).map some ++ [none] ∧
      destroy_results w.trace = [] ∧
      main_with E CONTAINER_new fuel vs (addrs.map some ++ more) =
        (Outcome.exited 0,
          { w with
            stdout := w.stdout ++ "\n"
            released := [w.myqueue.head]
            trace := w.trace ++ [Event.cds_lfq_destroy_rcu 0] ++
              [Event.rcu_unregister_thread] }) := by
  have hcs := main_with_eq E fuel more (addrs.zip vs)
    (by rw [zip_map_node E.layout hlen]; exact hnd)
    (by simp [List.length_zip, hlen]; exact hf)
  rw [zip_map_snd hlen, zip_map_some hlen, zip_map_node E.layout hlen] at hcs
  exact hcs

/-! ## The claims about the normal run -/

/-- C1 (FIFO).  For every list of values `vs`: when the calls of `malloc` return
addresses whose queue nodes are pairwise distinct and distinct from the
sentinel, the run of `main` on `vs` hands to `cds_lfq_enqueue_rcu` one node per
value, in list order; the calls of `cds_lfq_dequeue_rcu` return exactly these
nodes in the same order and then absent; and the `value` fields of the
containers recovered from the returned nodes, in dequeue order, are `vs`. -/
theorem main_fifo (E : Env) (fuel : Nat) (more : List (Option Nat)) (vs : List Int)
    (addrs : List Nat) (hlen : addrs.length = vs.length)
    (hnd : (E.sentinel :: addrs.map (fun p => p + offsetof_member2 E.layout)).Nodup)
    (hf : vs.length < fuel) :
    enqueued (main_with E CONTAINER_new fuel vs (addrs.map some ++ more)).2.trace =
      addrs.map (fun p => p + offsetof_member2 E.layout) ∧
    dequeue_results (main_with E CONTAINER_new fuel vs (addrs.map some ++ more)).2.trace =
      (addrs.map (fun p => p + offsetof_member2 E.layout)).map some ++ [none] ∧
    (dequeued (main_with E CONTAINER_new fuel vs (addrs.map some ++ more)).2.trace).map
      (fun m => (main_with E CONTAINER_new fuel vs (addrs.map some ++ more)).2.mem.value
        (get_container_ptr_by_member2 E.layout m + offsetof_value E.layout)) = vs := by
  obtain ⟨w, hI, _, hres, _, heq⟩ := main_with_run E fuel more vs addrs hlen hnd hf
  rw [heq]
  refine ⟨?_, ?_, ?_⟩
  · show enqueued (w.trace ++ _ ++ _) = _
    simp [enqueued_append, enqueued, hI.tr_enq, zip_map_node E.layout hlen]
  · show dequeue_results (w.trace ++ _ ++ _) = _
    simp [dequeue_results_append, dequeue_results, hres]
  · show (dequeued (w.trace ++ _ ++ _)).map (fun m => w.mem.value _) = vs
    have hd : dequeued (w.trace ++ [Event.cds_lfq_destroy_rcu 0] ++
        [Event.rcu_unregister_thread]) = (addrs.zip vs).map (node_of E.layout) := by
      simp [dequeued_append, dequeued, hI.tr_deq]
    rw [hd, List.map_map]
    have hv : ∀ c ∈ addrs.zip vs,
        ((fun m => w.mem.value
          (get_container_ptr_by_member2 E.layout m + offsetof_value E.layout)) ∘
            node_of E.layout) c = Prod.snd c := by
      intro c hc
      have := hI.vals c (by simpa using hc)
      simpa [node_of, get_container_ptr_by_member2, offsetof_value] using this
    rw [List.map_congr_left hv, zip_map_snd hlen]

/-- C1 at the array of the source, `-5, 42, 36, 24`, with containers at 1000,
2000, 3000 and 4000. -/
theorem main_fifo_witness :
    ([1000, 2000, 3000, 4000] : List Nat).length = values.length ∧
    (E0.sentinel ::
      [1000, 2000, 3000, 4000].map (fun p => p + offsetof_member2 E0.layout)).Nodup ∧
    values.length < 10 ∧
    (enqueued (main_with E0 CONTAINER_new 10 values
        ([1000, 2000, 3000, 4000].map some ++ [])).2.trace =
      [1000, 2000, 3000, 4000].map (fun p => p + offsetof_member2 E0.layout) ∧
    dequeue_results (main_with E0 CONTAINER_new 10 values
        ([1000, 2000, 3000, 4000].map some ++ [])).2.trace =
      ([1000, 2000, 3000, 4000].map (fun p => p + offsetof_member2 E0.layout)).map some ++
        [none] ∧
    (dequeued (main_with E0 CONTAINER_new 10 values
        ([1000, 2000, 3000, 4000].map some ++ [])).2.trace).map
      (fun m => (main_with E0 CONTAINER_new 10 values
        ([1000, 2000, 3000, 4000].map some ++ [])).2.mem.value
        (get_container_ptr_by_member2 E0.layout m + offsetof_value E0.layout)) = values) :=
  ⟨by decide, by decide, by decide,
    main_fifo E0 10 [] values [1000, 2000, 3000, 4000] (by decide) (by decide) (by decide)⟩

/-- C2 (emptiness and clean exit).  For every list of values `vs`, under the same
conditions on `malloc`: the run of `main` ends by `main` returning 0; the calls
of `cds_lfq_dequeue_rcu` return the enqueued nodes and then, once, absent, which
ends the loop; the one call of `cds_lfq_destroy_rcu` returns 0 and releases the
sentinel; and the output is the line of values and nothing else, so the
message of line 114 is not printed. -/
theorem main_clean_exit (E : Env) (fuel : Nat) (more : List (Option Nat)) (vs : List Int)
    (addrs : List Nat) (hlen : addrs.length = vs.length)
    (hnd : (E.sentinel :: addrs.map (fun p => p + offsetof_member2 E.layout)).Nodup)
    (hf : vs.length < fuel) :
    (main_with E CONTAINER_new fuel vs (addrs.map some ++ more)).1 = Outcome.exited 0 ∧
    dequeue_results (main_with E CONTAINER_new fuel vs (addrs.map some ++ more)).2.trace =
      (addrs.map (fun p => p + offsetof_member2 E.layout)).map some ++ [none] ∧
    destroy_results (main_with E CONTAINER_new fuel vs (addrs.map some ++ more)).2.trace =
      [0] ∧
    (main_with E CONTAINER_new fuel vs (addrs.map some ++ more)).2.released =
      [(main_with E CONTAINER_new fuel vs (addrs.map some ++ more)).2.myqueue.head] ∧
    (main_with E CONTAINER_new fuel vs (addrs.map some ++ more)).2.myqueue.head =
      (main_with E CONTAINER_new fuel vs (addrs.map some ++ more)).2.myqueue.tail ∧
    (main_with E CONTAINER_new fuel vs (addrs.map some ++ more)).2.stdout =
      "dequeued content:" ++ printed vs ++ "\n" := by
  obtain ⟨w, hI, hout, hres, hdes, heq⟩ := main_with_run E fuel more vs addrs hlen hnd hf
  rw [heq]
  refine ⟨rfl, ?_, ?_, rfl, hI.linked.1, ?_⟩
  · show dequeue_results (w.trace ++ _ ++ _) = _
    simp [dequeue_results_append, dequeue_results, hres]
  · show destroy_results (w.trace ++ _ ++ _) = _
    simp [destroy_results_append, destroy_results, hdes]
  · show w.stdout ++ "\n" = _
    rw [hout]

/-- C2 at the array of the source, with containers at 1000, 2000, 3000 and 4000. -/
theorem main_clean_exit_witness :
    ([1000, 2000, 3000, 4000] : List Nat).length = values.length ∧
    (E0.sentinel ::
      [1000, 2000, 3000, 4000].map (fun p => p + offsetof_member2 E0.layout)).Nodup ∧
    values.length < 10 ∧
    ((main_with E0 CONTAINER_new 10 values ([1000, 2000, 3000, 4000].map some ++ [])).1 =
      Outcome.exited 0 ∧
    dequeue_results
        (main_with E0 CONTAINER_new 10 values
          ([1000, 2000, 3000, 4000].map some ++ [])).2.trace =
      ([1000, 2000, 3000, 4000].map (fun p => p + offsetof_member2 E0.layout)).map some ++
        [none] ∧
    destroy_results
        (main_with E0 CONTAINER_new 10 values
          ([1000, 2000, 3000, 4000].map some ++ [])).2.trace = [0] ∧
    (main_with E0 CONTAINER_new 10 values
        ([1000, 2000, 3000, 4000].map some ++ [])).2.released =
      [(main_with E0 CONTAINER_new 10 values
        ([1000, 2000, 3000, 4000].map some ++ [])).2.myqueue.head] ∧
    (main_with E0 CONTAINER_new 10 values
        ([1000, 2000, 3000, 4000].map some ++ [])).2.myqueue.head =
      (main_with E0 CONTAINER_new 10 values
        ([1000, 2000, 3000, 4000].map some ++ [])).2.myqueue.tail ∧
    (main_with E0 CONTAINER_new 10 values
        ([1000, 2000, 3000, 4000].map some ++ [])).2.stdout =
      "dequeued content:" ++ printed values ++ "\n") :=
  ⟨by decide, by decide, by decide,
    main_clean_exit E0 10 [] values [1000, 2000, 3000, 4000] (by decide) (by decide)
      (by decide)⟩

/-! ## The printed line -/

theorem digitChar_plain :
    ∀ k, k < 10 → Nat.digitChar k ≠ '\n' ∧ Nat.digitChar k ≠ ' ' := by
  decide

theorem toDigitsCore_plain : ∀ (f n : Nat) (ds : List Char),
    (∀ c ∈ ds, c ≠ '\n' ∧ c ≠ ' ') →
    ∀ c ∈ Nat.toDigitsCore 10 f n ds, c ≠ '\n' ∧ c ≠ ' ' := by
  intro f
  induction f with
  | zero => intro n ds h; simpa [Nat.toDigitsCore] using h
  | succ f ih =>
    intro n ds h
    have hd : ∀ c ∈ Nat.digitChar (n % 10) :: ds, c ≠ '\n' ∧ c ≠ ' ' := by
      intro c hc
      rcases List.mem_cons.mp hc with e | hm
      · rw [e]; exact digitChar_plain _ (Nat.mod_lt _ (by decide))
      · exact h c hm
    simp only [Nat.toDigitsCore]
    split_ifs
    · exact hd
    · exact ih _ _ hd

/-- The decimal text of an integer holds neither a newline nor a space. -/
theorem int_toString_plain (v : Int) :
    ∀ c ∈ (toString v).data, c ≠ '\n' ∧ c ≠ ' ' := by
  intro c hc
  cases v with
  | ofNat m =>
    have : (toString (Int.ofNat m)).data = Nat.toDigits 10 m := rfl
    rw [this] at hc
    exact toDigitsCore_plain _ _ [] (by simp) c hc
  | negSucc m =>
    have : (toString (Int.negSucc m)).data = '-' :: Nat.toDigits 10 (m + 1) := rfl
    rw [this] at hc
    rcases List.mem_cons.mp hc with e | hm
    · rw [e]; exact ⟨by decide, by decide⟩
    · exact toDigitsCore_plain _ _ [] (by simp) c hm

theorem foldl_append_start (l : List String) : ∀ acc : String,
    List.foldl (fun r s => r ++ s) acc l = acc ++ List.foldl (fun r s => r ++ s) "" l := by
  induction l with
  | nil => intro acc; simp
  | cons a as ih =>
    intro acc
    rw [List.foldl_cons, List.foldl_cons, ih (acc ++ a), ih ("" ++ a)]
    simp [String.append_assoc]

theorem join_cons (a : String) (l : List String) :
    String.join (a :: l) = a ++ String.join l := by
  simp only [String.join, List.foldl_cons]
  rw [foldl_append_start]
  simp

theorem intercalate_go_eq (s : String) : ∀ (l : List String) (acc : String),
    String.intercalate.go acc s l = acc ++ String.join (l.map (fun a => s ++ a)) := by
  intro l
  induction l with
  | nil => intro acc; simp [String.intercalate.go, String.join]
  | cons a as ih =>
    intro acc
    simp only [String.intercalate.go, ih, List.map_cons, join_cons]
    simp [String.append_assoc]

theorem printed_eq_join (vs : List Int) :
    printed vs = String.join (vs.map (fun v => " " ++ toString v)) := by
  induction vs with
  | nil => rfl
  | cons v vs ih => simp only [printed, List.map_cons, join_cons, ih]

theorem printed_eq_intercalate (vs : List Int) :
    printed vs = (if vs = [] then "" else " ") ++ " ".intercalate (vs.map toString) := by
  cases vs with
  | nil => rfl
  | cons v vs =>
    simp only [String.intercalate, List.map_cons, intercalate_go_eq, printed_eq_join,
      join_cons, List.map_map]
    simp [String.append_assoc, Function.comp_def]

theorem printed_no_newline (vs : List Int) : (printed vs).data.count '\n' = 0 := by
  induction vs with
  | nil => rfl
  | cons v vs ih =>
    simp only [printed, String.data_append, List.count_append, ih]
    have h1 : (toString v).data.count '\n' = 0 :=
      List.count_eq_zero.mpr (fun hm => (int_toString_plain v _ hm).1 rfl)
    rw [h1]
    rfl

/-- C6 (output format).  For every list of values `vs`, under the conditions of
the normal run, the text on standard output is the label `dequeued content:`,
then each value of `vs` in decimal, in list order, each after one space (that
is, for a non-empty `vs`, one space and the values joined by single spaces),
then one newline.  The decimal texts hold no space and no newline, so the
output holds exactly one newline, which is its last character: it is one line
and nothing follows it. -/
theorem main_output_line (E : Env) (fuel : Nat) (more : List (Option Nat)) (vs : List Int)
    (addrs : List Nat) (hlen : addrs.length = vs.length)
    (hnd : (E.sentinel :: addrs.map (fun p => p + offsetof_member2 E.layout)).Nodup)
    (hf : vs.length < fuel) :
    (main_with E CONTAINER_new fuel vs (addrs.map some ++ more)).2.stdout =
      "dequeued content:" ++ printed vs ++ "\n" ∧
    printed vs = String.join (vs.map (fun v => " " ++ toString v)) ∧
    printed vs = (if vs = [] then "" else " ") ++ " ".intercalate (vs.map toString) ∧
    (∀ v ∈ vs, ∀ c ∈ (toString v).data, c ≠ '\n' ∧ c ≠ ' ') ∧
    (main_with E CONTAINER_new fuel vs (addrs.map some ++ more)).2.stdout.data.count
      '\n' = 1 ∧
    (main_with E CONTAINER_new fuel vs (addrs.map some ++ more)).2.stdout.data.getLast? =
      some '\n' := by
  obtain ⟨w, _, hout, _, _, heq⟩ := main_with_run E fuel more vs addrs hlen hnd hf
  have hs : (main_with E CONTAINER_new fuel vs (addrs.map some ++ more)).2.stdout =
      "dequeued content:" ++ printed vs ++ "\n" := by
    rw [heq]
    show w.stdout ++ "\n" = _
    rw [hout]
  refine ⟨hs, printed_eq_join vs, printed_eq_intercalate vs,
    fun v _ => int_toString_plain v, ?_, ?_⟩
  · rw [hs]
    simp only [String.data_append, List.count_append, printed_no_newline]
    rfl
  · rw [hs]
    simp only [String.data_append]
    rw [List.getLast?_append]
    rfl

/-- C6 at the array of the source: the line reads `dequeued content: -5 42 36 24`. -/
theorem main_output_line_witness :
    ([1000, 2000, 3000, 4000] : List Nat).length = values.length ∧
    (E0.sentinel ::
      [1000, 2000, 3000, 4000].map (fun p => p + offsetof_member2 E0.layout)).Nodup ∧
    values.length < 10 ∧
    "dequeued content:" ++ printed values ++ "\n" = "dequeued content: -5 42 36 24\n" ∧
    ((main_with E0 CONTAINER_new 10 values ([1000, 2000, 3000, 4000].map some ++ [])).2.stdout =
      "dequeued content:" ++ printed values ++ "\n" ∧
    printed values = String.join (values.map (fun v => " " ++ toString v)) ∧
    printed values =
      (if values = [] then "" else " ") ++ " ".intercalate (values.map toString) ∧
    (∀ v ∈ values, ∀ c ∈ (toString v).data, c ≠ '\n' ∧ c ≠ ' ') ∧
    (main_with E0 CONTAINER_new 10 values
      ([1000, 2000, 3000, 4000].map some ++ [])).2.stdout.data.count '\n' = 1 ∧
    (main_with E0 CONTAINER_new 10 values
      ([1000, 2000, 3000, 4000].map some ++ [])).2.stdout.data.getLast? = some '\n') :=
  ⟨by decide, by decide, by decide, by decide,
    main_output_line E0 10 [] values [1000, 2000, 3000, 4000] (by decide) (by decide)
      (by decide)⟩

/-! ## Deferred release -/

theorem align_up_ge (off a : Nat) (ha : 0 < a) : off ≤ align_up off a := by
  unfold align_up
  have h1 := Nat.div_add_mod (off + (a - 1)) a
  have h2 := Nat.mod_lt (off + (a - 1)) ha
  have h3 : a * ((off + (a - 1)) / a) = (off + (a - 1)) / a * a := Nat.mul_comm _ _
  omega

theorem align_up_lt (off a : Nat) (ha : 0 < a) : align_up off a < off + a := by
  unfold align_up
  have h1 := Nat.div_add_mod (off + (a - 1)) a
  have h3 : a * ((off + (a - 1)) / a) = (off + (a - 1)) / a * a := Nat.mul_comm _ _
  omega

theorem align_up_dvd (off a : Nat) : a ∣ align_up off a :=
  Dvd.intro_left _ rfl

/-- C4 (container retrieval round trip).  For every layout and every container
address `c`, each helper applied to the address of the embedded member gives
back `c`.  What a helper subtracts is the member's offset, which is computed
from the layout alone: the helper is the same subtraction at every argument.
When alignments are positive the offset of `member2` is the size of `int`
rounded up to the alignment of the node: it is at least `sizeof(int)`, less
than one alignment more, and a multiple of the alignment; with the LP64
figures it is 8, four bytes of padding after the 4-byte `int`, and the offset
of `rcu_head` is 24. -/
theorem container_ptr_round_trip (L : Layout) (c : Nat) :
    get_container_ptr_by_member2 L (c + offsetof_member2 L) = c ∧
    get_container_ptr_by_member3 L (c + offsetof_rcu_head L) = c ∧
    (∀ m, offsetof_member2 L ≤ m →
      get_container_ptr_by_member2 L m + offsetof_member2 L = m) ∧
    (∀ m, offsetof_rcu_head L ≤ m →
      get_container_ptr_by_member3 L m + offsetof_rcu_head L = m) ∧
    (0 < L.alignof_node →
      L.sizeof_int ≤ offsetof_member2 L ∧
      offsetof_member2 L < L.sizeof_int + L.alignof_node ∧
      L.alignof_node ∣ offsetof_member2 L) ∧
    (0 < L.alignof_rcu_head →
      offsetof_member2 L + L.sizeof_node ≤ offsetof_rcu_head L ∧
      offsetof_rcu_head L < offsetof_member2 L + L.sizeof_node + L.alignof_rcu_head ∧
      L.alignof_rcu_head ∣ offsetof_rcu_head L) ∧
    offsetof_member2 LP64 = 8 ∧ offsetof_rcu_head LP64 = 24 := by
  refine ⟨by simp [get_container_ptr_by_member2], by simp [get_container_ptr_by_member3],
    ?_, ?_, ?_, ?_, by decide, by decide⟩
  · intro m hm
    simp only [get_container_ptr_by_member2]
    omega
  · intro m hm
    simp only [get_container_ptr_by_member3]
    omega
  · intro ha
    have h1 := align_up_ge (offsetof_value L + L.sizeof_int) L.alignof_node ha
    have h2 := align_up_lt (offsetof_value L + L.sizeof_int) L.alignof_node ha
    simp only [offsetof_value, Nat.zero_add] at h1 h2
    have he : offsetof_member2 L = align_up L.sizeof_int L.alignof_node := by
      simp [offsetof_member2, offsetof_value]
    rw [he]
    exact ⟨h1, h2, align_up_dvd _ _⟩
  · intro ha
    exact ⟨align_up_ge _ _ ha, align_up_lt _ _ ha, align_up_dvd _ _⟩

/-- C4 at the LP64 layout and the container at 1000: the node is at 1008 and
the `rcu_head` at 1024. -/
theorem container_ptr_round_trip_witness :
    get_container_ptr_by_member2 LP64 1008 = 1000 ∧
    get_container_ptr_by_member3 LP64 1024 = 1000 ∧
    LP64.sizeof_int ≤ offsetof_member2 LP64 ∧
    LP64.alignof_node ∣ offsetof_member2 LP64 :=
  ⟨(container_ptr_round_trip LP64 1000).1, (container_ptr_round_trip LP64 1000).2.1,
    ((container_ptr_round_trip LP64 1000).2.2.2.2.1 (by decide)).1,
    ((container_ptr_round_trip LP64 1000).2.2.2.2.1 (by decide)).2.2⟩

/-! ## Arbitrary sequences of operations -/

theorem run_ops_inv (E : Env) (fuel : Nat) (more : List (Option Nat)) (ops : List Op) :
    ∀ (addrs : List Nat) (w : World) (ret pend : List (Nat × Int)), Inv E w ret pend →
      addrs.length = enqueue_count ops →
      (E.sentinel :: ((ret ++ pend).map (node_of E.layout) ++
        addrs.map (fun p => p + offsetof_member2 E.layout))).Nodup →
      ∃ ret1 pend1,
        (run_ops E (fuel + 1) ops (addrs.map some ++ more) w).1 = Flow.next ∧
        Inv E (run_ops E (fuel + 1) ops (addrs.map some ++ more) w).2 ret1 pend1 := by
  induction ops with
  | nil =>
    intro addrs w ret pend hI _ _
    exact ⟨ret, pend, rfl, hI⟩
  | cons op ops ih =>
    intro addrs w ret pend hI hlen hnd
    cases op with
    | enqueue v =>
      obtain ⟨a, addrs1, rfl⟩ : ∃ a addrs1, addrs = a :: addrs1 := by
        cases addrs with
        | nil => simp [enqueue_count] at hlen
        | cons a t => exact ⟨a, t, rfl⟩
      have hfresh : a + offsetof_member2 E.layout ∉
          E.sentinel :: (ret ++ pend).map (node_of E.layout) := by
        rw [← List.cons_append] at hnd
        intro hm
        exact List.disjoint_of_nodup_append hnd hm (by simp)
      have heq := enqueue_body_eq hI a v fuel hfresh
      have hinv := enqueue_body_inv hI a v fuel hfresh
      rw [heq] at hinv
      simp only [run_ops, List.map_cons, List.cons_append, List.headD_cons, List.tail_cons,
        heq]
      refine ih addrs1 _ ret (pend ++ [(a, v)]) hinv ?_ ?_
      · simpa [enqueue_count] using hlen
      · simpa [node_of] using hnd
    | dequeue =>
      cases pend with
      | nil =>
        have heq := dequeue_body_nil_eq hI fuel
        have hinv := dequeue_body_nil_inv hI fuel
        rw [heq] at hinv
        simp only [run_ops, heq]
        exact ih addrs _ ret [] hinv (by simpa [enqueue_count] using hlen) hnd
      | cons c pend =>
        have heq := dequeue_body_cons_eq hI fuel
        have hinv := dequeue_body_cons_inv hI fuel
        rw [heq] at hinv
        simp only [run_ops, heq]
        exact ih addrs _ (ret ++ [c]) pend hinv (by simpa [enqueue_count] using hlen)
          (by simpa using hnd)

theorem state_after_inv (E : Env) (fuel : Nat) (more : List (Option Nat)) (ops : List Op)
    (addrs : List Nat) (hf : 0 < fuel) (hlen : addrs.length = enqueue_count ops)
    (hnd : (E.sentinel :: addrs.map (fun p => p + offsetof_member2 E.layout)).Nodup) :
    ∃ ret pend,
      (run_ops E fuel ops (addrs.map some ++ more) (main_start E)).1 = Flow.next ∧
      Inv E (state_after E fuel ops (addrs.map some ++ more)) ret pend := by
  obtain ⟨f, rfl⟩ : ∃ f, fuel = f + 1 := ⟨fuel - 1, by omega⟩
  exact run_ops_inv E f more ops addrs (main_start E) [] [] (main_start_inv E) hlen
    (by simpa using hnd)

theorem Inv.pending {E : Env} {w : World} {ret pend : List (Nat × Int)}
    (hI : Inv E w ret pend) : pending_nodes w = pend.map (node_of E.layout) := by
  simp [pending_nodes, hI.tr_enq, hI.tr_deq]

theorem Inv.after_teardown {E : Env} {w : World} {ret pend : List (Nat × Int)}
    (hI : Inv E w ret pend) (s : String) (r : Int) :
    Inv E { w with stdout := s, trace := w.trace ++ [Event.cds_lfq_destroy_rcu r] ++
      [Event.rcu_unregister_thread] } ret pend := by
  refine
    { nodup := hI.nodup, linked := hI.linked, head := hI.head, vals := hI.vals,
      deferred := hI.deferred, tr_enq := ?_, tr_deq := ?_, tr_defer := ?_,
      freed := hI.freed, released := hI.released }
  · show enqueued (w.trace ++ _ ++ _) = _
    simp [enqueued_append, enqueued, hI.tr_enq]
  · show dequeued (w.trace ++ _ ++ _) = _
    simp [dequeued_append, dequeued, hI.tr_deq]
  · show deferred_heads (w.trace ++ _ ++ _) = _
    simp [deferred_heads_append, deferred_heads, hI.tr_defer]

/-- C3 (non-empty teardown).  Take any state reached from the initialised queue
by enqueue and dequeue rounds (fresh containers for the enqueues) in which at
least one enqueued node has not been dequeued, and a non-zero error value.
Then `cds_lfq_destroy_rcu` returns the error value and releases nothing; the
teardown of `main` (lines 108-118) prints the end of line and then
`Error destroying queue (non-empty)`, and `main` returns the error value; the
queue object, the heap and the pending nodes are as before; and a dequeue loop
run afterwards ends, its calls returning exactly the pending nodes in enqueue
order and then absent. -/
theorem destroy_non_empty (E : Env) (fuel : Nat) (more : List (Option Nat)) (ops : List Op)
    (addrs : List Nat) (n : Nat) (herr : E.non_empty_error ≠ 0) (hf : 0 < fuel)
    (hlen : addrs.length = enqueue_count ops)
    (hnd : (E.sentinel :: addrs.map (fun p => p + offsetof_member2 E.layout)).Nodup)
    (hN : 0 < (pending_nodes (state_after E fuel ops (addrs.map some ++ more))).length)
    (hn : (pending_nodes (state_after E fuel ops (addrs.map some ++ more))).length < n) :
    cds_lfq_destroy_rcu E.non_empty_error
        (state_after E fuel ops (addrs.map some ++ more)).myqueue
        (state_after E fuel ops (addrs.map some ++ more)).released =
      (E.non_empty_error, (state_after E fuel ops (addrs.map some ++ more)).released) ∧
    (main_teardown E (state_after E fuel ops (addrs.map some ++ more))).1 =
      Outcome.exited E.non_empty_error ∧
    (main_teardown E (state_after E fuel ops (addrs.map some ++ more))).2.stdout =
      (state_after E fuel ops (addrs.map some ++ more)).stdout ++ "\n" ++
        "Error destroying queue (non-empty)\n" ∧
    (main_teardown E (state_after E fuel ops (addrs.map some ++ more))).2.myqueue =
      (state_after E fuel ops (addrs.map some ++ more)).myqueue ∧
    (main_teardown E (state_after E fuel ops (addrs.map some ++ more))).2.mem =
      (state_after E fuel ops (addrs.map some ++ more)).mem ∧
    (main_teardown E (state_after E fuel ops (addrs.map some ++ more))).2.released =
      (state_after E fuel ops (addrs.map some ++ more)).released ∧
    pending_nodes (main_teardown E (state_after E fuel ops (addrs.map some ++ more))).2 =
      pending_nodes (state_after E fuel ops (addrs.map some ++ more)) ∧
    (main_dequeue_loop E fuel n
      (main_teardown E (state_after E fuel ops (addrs.map some ++ more))).2).1 = Flow.next ∧
    dequeue_results (main_dequeue_loop E fuel n
      (main_teardown E (state_after E fuel ops (addrs.map some ++ more))).2).2.trace =
      dequeue_results (state_after E fuel ops (addrs.map some ++ more)).trace ++
        (pending_nodes (state_after E fuel ops (addrs.map some ++ more))).map some ++
        [none] := by
  obtain ⟨ret, pend, _, hI⟩ := state_after_inv E fuel more ops addrs hf hlen hnd
  generalize state_after E fuel ops (addrs.map some ++ more) = W at hI hN hn ⊢
  obtain ⟨f, rfl⟩ : ∃ f, fuel = f + 1 := ⟨fuel - 1, by omega⟩
  rw [hI.pending] at hN hn ⊢
  obtain ⟨c, pend1, rfl⟩ : ∃ c pend1, pend = c :: pend1 := by
    cases pend with
    | nil => simp at hN
    | cons c t => exact ⟨c, t, rfl⟩
  have ht := hI.head_ne_tail
  have heq := teardown_nonempty_eq hI herr
  have hI2 := hI.after_teardown
    (W.stdout ++ "\n" ++ "Error destroying queue (non-empty)\n") E.non_empty_error
  obtain ⟨d1, _, _, d4, _⟩ := dequeue_loop_spec E f (c :: pend1) n _ ret hI2
    (by simpa using hn)
  rw [heq]
  refine ⟨by simp [cds_lfq_destroy_rcu, ht], rfl, rfl, rfl, rfl, rfl, ?_, d1, ?_⟩
  · exact hI2.pending
  · rw [d4]
    show dequeue_results (W.trace ++ _ ++ _) ++ _ ++ _ = _
    simp [dequeue_results_append, dequeue_results]

/-- C3 after enqueueing the four values of the source and dequeueing two: the
teardown reports the error `-1`, and a later dequeue loop returns the nodes at
3008 and 4008, then absent. -/
theorem destroy_non_empty_witness :
    E0.non_empty_error ≠ 0 ∧ 0 < 5 ∧
    ([1000, 2000, 3000, 4000] : List Nat).length =
      enqueue_count [Op.enqueue (-5), Op.enqueue 42, Op.enqueue 36, Op.enqueue 24,
        Op.dequeue, Op.dequeue] ∧
    (E0.sentinel ::
      [1000, 2000, 3000, 4000].map (fun p => p + offsetof_member2 E0.layout)).Nodup ∧
    pending_nodes (state_after E0 5
      [Op.enqueue (-5), Op.enqueue 42, Op.enqueue 36, Op.enqueue 24, Op.dequeue, Op.dequeue]
      [some 1000, some 2000, some 3000, some 4000]) = [3008, 4008] ∧
    (main_teardown E0 (state_after E0 5
      [Op.enqueue (-5), Op.enqueue 42, Op.enqueue 36, Op.enqueue 24, Op.dequeue, Op.dequeue]
      [some 1000, some 2000, some 3000, some 4000])).1 = Outcome.exited E0.non_empty_error ∧
    dequeue_results (main_dequeue_loop E0 5 3
      (main_teardown E0 (state_after E0 5
        [Op.enqueue (-5), Op.enqueue 42, Op.enqueue 36, Op.enqueue 24, Op.dequeue,
          Op.dequeue]
        [some 1000, some 2000, some 3000, some 4000])).2).2.trace =
      dequeue_results (state_after E0 5
        [Op.enqueue (-5), Op.enqueue 42, Op.enqueue 36, Op.enqueue 24, Op.dequeue,
          Op.dequeue]
        [some 1000, some 2000, some 3000, some 4000]).trace ++
        (pending_nodes (state_after E0 5
          [Op.enqueue (-5), Op.enqueue 42, Op.enqueue 36, Op.enqueue 24, Op.dequeue,
            Op.dequeue]
          [some 1000, some 2000, some 3000, some 4000])).map some ++ [none] :=
  ⟨by decide, by decide, by decide, by decide, by decide,
    (destroy_non_empty E0 5 []
      [Op.enqueue (-5), Op.enqueue 42, Op.enqueue 36, Op.enqueue 24, Op.dequeue, Op.dequeue]
      [1000, 2000, 3000, 4000] 3 (by decide) (by decide) (by decide) (by decide)
      (by decide) (by decide)).2.1,
    (destroy_non_empty E0 5 []
      [Op.enqueue (-5), Op.enqueue 42, Op.enqueue 36, Op.enqueue 24, Op.dequeue, Op.dequeue]
      [1000, 2000, 3000, 4000] 3 (by decide) (by decide) (by decide) (by decide)
      (by decide) (by decide)).2.2.2.2.2.2.2.2⟩

/-! ## Reachability -/

/-- The enqueue loop of `main` is the sequence of its enqueue rounds. -/
theorem main_enqueue_loop_eq_run_ops (E : Env) (fuel : Nat) (vs : List Int) :
    ∀ (mallocs : List (Option Nat)) (w : World),
      main_enqueue_loop E CONTAINER_new fuel vs mallocs w =
        run_ops E fuel (vs.map Op.enqueue) mallocs w := by
  induction vs with
  | nil => intro mallocs w; rfl
  | cons v vs ih =>
    intro mallocs w
    simp only [main_enqueue_loop, run_ops, List.map_cons]
    split <;> simp_all

theorem enqueue_loop_prefix (E : Env) (fuel : Nat) (cs : List (Nat × Int)) :
    ∀ (w : World) (ret pend : List (Nat × Int)), Inv E w ret pend →
      (E.sentinel :: (ret ++ pend ++ cs).map (node_of E.layout)).Nodup →
      ∃ w1 : World, Inv E w1 ret (pend ++ cs) ∧ w1.stdout = w.stdout ∧
        ∀ (vrest : List Int) (mrest : List (Option Nat)),
          main_enqueue_loop E CONTAINER_new (fuel + 1) (cs.map Prod.snd ++ vrest)
              (cs.map (fun c => some c.1) ++ mrest) w =
            main_enqueue_loop E CONTAINER_new (fuel + 1) vrest mrest w1 := by
  induction cs with
  | nil =>
    intro w ret pend hI _
    exact ⟨w, by simpa using hI, rfl, fun _ _ => rfl⟩
  | cons c cs ih =>
    intro w ret pend hI hnd
    have hfresh : c.1 + offsetof_member2 E.layout ∉
        E.sentinel :: (ret ++ pend).map (node_of E.layout) := by
      have h1 : (E.sentinel :: ((ret ++ pend).map (node_of E.layout) ++
          (node_of E.layout c :: cs.map (node_of E.layout)))).Nodup := by
        simpa using hnd
      rw [← List.cons_append] at h1
      intro hm
      exact List.disjoint_of_nodup_append h1 hm (by simp [node_of])
    have heq := enqueue_body_eq hI c.1 c.2 fuel hfresh
    have hinv := enqueue_body_inv hI c.1 c.2 fuel hfresh
    rw [heq] at hinv
    have hnd2 : (E.sentinel :: (ret ++ (pend ++ [(c.1, c.2)]) ++ cs).map
        (node_of E.layout)).Nodup := by
      simpa using hnd
    obtain ⟨w1, h1, h2, h3⟩ := ih _ ret (pend ++ [(c.1, c.2)]) hinv hnd2
    refine ⟨w1, by simpa using h1, h2, ?_⟩
    intro vrest mrest
    simp only [main_enqueue_loop, List.map_cons, List.cons_append, List.headD_cons,
      List.tail_cons, heq]
    exact h3 vrest mrest

theorem CONTAINER_new_not_null (L : Layout) (m : Option Nat) (v : Int) (mem mem1 : Mem) :
    CONTAINER_new L m v mem ≠ NewResult.returned none mem1 := by
  cases m <;> simp [CONTAINER_new]

theorem enqueue_body_no_goto (E : Env) (fuel : Nat) (v : Int) (m : Option Nat) (w : World) :
    (main_enqueue_body E CONTAINER_new fuel v m w).1 ≠ Flow.goto_end := by
  cases m with
  | none => simp [main_enqueue_body, CONTAINER_new]
  | some a =>
    simp only [main_enqueue_body, CONTAINER_new]
    split <;> simp

theorem enqueue_loop_no_goto (E : Env) (fuel : Nat) (vs : List Int) :
    ∀ (mallocs : List (Option Nat)) (w : World),
      (main_enqueue_loop E CONTAINER_new fuel vs mallocs w).1 ≠ Flow.goto_end := by
  induction vs with
  | nil => intro mallocs w; simp [main_enqueue_loop]
  | cons v vs ih =>
    intro mallocs w
    have hb := enqueue_body_no_goto E fuel v (mallocs.headD none) w
    simp only [main_enqueue_loop]
    split
    · exact ih _ _
    · rename_i other hne
      exact hb

/-- C5, as amended (allocation failure).  `CONTAINER_new` never returns a null
pointer, so the enqueue loop of `main` never takes the `ret = -1; goto end`
path of lines 70-73.  When `malloc` fails for an element of the array (after
successful allocations of fresh containers for the elements before it, and
with room for at least one retry in the queue), `CONTAINER_new` calls
`abort()`: the run ends there, with nothing printed on standard output, and
`main` returns no exit code at all, in particular neither 0 nor the error
value of the teardown. -/
theorem alloc_failure_aborts (E : Env) (fuel : Nat) (vs : List Int) (addrs : List Nat)
    (rest : List (Option Nat)) (hf : 0 < fuel) (hlen : addrs.length < vs.length)
    (hnd : (E.sentinel :: addrs.map (fun p => p + offsetof_member2 E.layout)).Nodup)
    (hfail : rest.headD none = none) :
    (main_with E CONTAINER_new fuel vs (addrs.map some ++ rest)).1 = Outcome.aborted ∧
    (main_with E CONTAINER_new fuel vs (addrs.map some ++ rest)).2.stdout = "" ∧
    (∀ ret, (main_with E CONTAINER_new fuel vs (addrs.map some ++ rest)).1 ≠
      Outcome.exited ret) ∧
    (∀ (L : Layout) (m : Option Nat) (v : Int) (mem mem1 : Mem),
      CONTAINER_new L m v mem ≠ NewResult.returned none mem1) ∧
    (∀ (values1 : List Int) (mallocs : List (Option Nat)) (w : World),
      (main_enqueue_loop E CONTAINER_new fuel values1 mallocs w).1 ≠ Flow.goto_end) := by
  obtain ⟨f, rfl⟩ : ∃ f, fuel = f + 1 := ⟨fuel - 1, by omega⟩
  have hk : (vs.take addrs.length).length = addrs.length := by
    simp [List.length_take]; omega
  obtain ⟨v, vs2, hdrop⟩ : ∃ v vs2, vs.drop addrs.length = v :: vs2 := by
    cases h : vs.drop addrs.length with
    | nil =>
      have := congrArg List.length h
      simp [List.length_drop] at this
      omega
    | cons v t => exact ⟨v, t, rfl⟩
  have hsplit : vs = vs.take addrs.length ++ v :: vs2 := by
    rw [← hdrop, List.take_append_drop]
  obtain ⟨w1, _, hout, hcont⟩ :=
    enqueue_loop_prefix E f (addrs.zip (vs.take addrs.length)) (main_start E) [] []
      (main_start_inv E) (by
        rw [List.nil_append, List.nil_append, zip_map_node E.layout hk.symm]; exact hnd)
  have hloop := hcont (v :: vs2) rest
  rw [zip_map_snd hk.symm, zip_map_some hk.symm, ← hsplit] at hloop
  have hbody : main_enqueue_loop E CONTAINER_new (f + 1) (v :: vs2) rest w1 =
      (Flow.abort, w1) := by
    simp only [main_enqueue_loop, hfail, main_enqueue_body, CONTAINER_new]
  have hmain : main_with E CONTAINER_new (f + 1) vs (addrs.map some ++ rest) =
      (Outcome.aborted, w1) := by
    simp only [main_with, hloop, hbody]
  refine ⟨by rw [hmain], ?_, ?_, CONTAINER_new_not_null, enqueue_loop_no_goto E (f + 1)⟩
  · rw [hmain]
    show w1.stdout = ""
    rw [hout]; rfl
  · intro ret
    rw [hmain]
    simp

/-- C5 at the array of the source when the third allocation fails. -/
theorem alloc_failure_aborts_witness :
    0 < 10 ∧ ([1000, 2000] : List Nat).length < values.length ∧
    (E0.sentinel :: [1000, 2000].map (fun p => p + offsetof_member2 E0.layout)).Nodup ∧
    ([none, some 4000] : List (Option Nat)).headD none = none ∧
    (main E0 10 [some 1000, some 2000, none, some 4000]).1 = Outcome.aborted ∧
    (main E0 10 [some 1000, some 2000, none, some 4000]).2.stdout = "" :=
  ⟨by decide, by decide, by decide, by decide,
    (alloc_failure_aborts E0 10 values [1000, 2000] [none, some 4000] (by decide)
      (by decide) (by decide) (by decide)).1,
    (alloc_failure_aborts E0 10 values [1000, 2000] [none, some 4000] (by decide)
      (by decide) (by decide) (by decide)).2.1⟩

/-- C5 as stated fails.  With the array of the source and a failing third
allocation, `main` does not return through the `ret = -1` path: the run ends in
`abort()` and there is no exit code, non-zero or other, returned by `main`. -/
theorem alloc_failure_no_exit_code :
    (main E0 10 [some 1000, some 2000, none, some 4000]).1 = Outcome.aborted ∧
    (main E0 10 [some 1000, some 2000, none, some 4000]).1 ≠ Outcome.exited (-1) ∧
    ¬ ∃ ret : Int, ret ≠ 0 ∧
      (main E0 10 [some 1000, some 2000, none, some 4000]).1 = Outcome.exited ret := by
  refine ⟨by decide, by decide, ?_⟩
  rintro ⟨ret, _, h⟩
  have h1 : (main E0 10 [some 1000, some 2000, none, some 4000]).1 = Outcome.aborted := by
    decide
  rw [h1] at h
  cases h

/-! ## Read-section discipline -/

/-- The `goto end` path of `main`: with a constructor that returns `NULL`,
`main` returns -1 after unregistering, inside the discipline. -/
theorem goto_end_path_example :
    (main_with E0 (fun _ _ _ mem => NewResult.returned none mem) 10 values []).1 =
      Outcome.exited (-1) ∧
    discipline
      (main_with E0 (fun _ _ _ mem => NewResult.returned none mem) 10 values []).2.trace =
        some Phase.finished ∧
    discipline (main E0 10 [some 1000, some 2000, some 3000, some 4000]).2.trace =
      some Phase.finished := by
  refine ⟨by decide, by decide, by decide⟩

end LfqDemo
